import Mathlib

/-!
# Verification of the hyper-micro LMDB document-store adapter

Shallow embedding of the namespaced key-value document store of
`hyper-micro` (the `db` adapter module together with the data/auth HTTP
routes that wrap it), and proofs about the frozen specification claims.

Modelling conventions:
* A JS string used as a document key is a list of UTF-16 code units
  (`Key := List Nat`); `String.fromCharCode` reduces its argument mod
  2 ^ 16 = 65536, which the model reproduces.
* Database names only need equality and membership tests, so they stay
  Lean `String`s.
* The LMDB engine is modelled as persistent association lists sorted by
  key (LMDB iterates keys in ascending order); `getRange` becomes a
  filter over the sorted list.  The in-process `dbCache` is the set of
  names opened by `getDb` since the last (re)initialization.
* `async/await` sequencing is pure state passing; a thrown `Error`
  becomes `Except.error` carrying the message.  All states are taken
  after `initializeLmdb` succeeded, so the `LMDB not initialized` throw
  never fires and is not represented.
* JS truthiness of a retrieved value is modelled by `Json.truthy`
  (`undefined`/absent, `null`, `false`, `0`, `""` are falsy; every
  object and array is truthy).
-/

set_option linter.unusedVariables false

namespace HyperMicro

/-- A JS string viewed as its UTF-16 code units; used for document keys. -/
abbrev Key := List Nat

/-- Database (namespace) names; only equality is needed. -/
abbrev Name := String

/-- JSON-serializable document values (`value: any` in the source). -/
inductive Json where
  | null : Json
  | bool (b : Bool) : Json
  | num (n : Int) : Json
  | str (s : Key) : Json
  | arr (elems : List Json) : Json
  | obj (fields : List (Key × Json)) : Json
deriving Repr

/-- JS truthiness of a stored document value: `null`, `false`, `0` and the
empty string are falsy; every other value, arrays and objects included,
is truthy. -/
def Json.truthy : Json → Bool
  | .null => false
  | .bool b => b
  | .num n => n != 0
  | .str s => s != []
  | .arr _ => true
  | .obj _ => true

/-- Truthiness of `await db.get(key)`: `undefined` (absent key) is falsy,
otherwise the stored value decides. -/
def optTruthy : Option Json → Bool
  | none => false
  | some v => v.truthy

/-- Strict lexicographic order on keys, i.e. the `<` of JS strings /
the ascending key order of LMDB range iteration. -/
def keyLt : Key → Key → Bool
  | [], [] => false
  | [], _ :: _ => true
  | _ :: _, [] => false
  | a :: as, b :: bs =>
    if a < b then true else if b < a then false else keyLt as bs

/-- One keyspace ("database" in LMDB terms): an association list of
key/value entries kept in ascending key order. -/
abbrev Keyspace := List (Key × Json)

/-- A keyspace is well-formed when its keys are strictly ascending
(this is the invariant LMDB maintains). -/
abbrev ksSorted (ks : Keyspace) : Prop :=
  List.Pairwise (fun a b => keyLt a.1 b.1 = true) ks

/-- `db.get(key)` : the stored value, or `none` for `undefined`. -/
def ksGet (ks : Keyspace) (k : Key) : Option Json :=
  (ks.find? (fun e => e.1 == k)).map (·.2)

/-- `db.put(key, value)` : order-preserving insert-or-replace. -/
def ksPut : Keyspace → Key → Json → Keyspace
  | [], k, v => [(k, v)]
  | (k', v') :: rest, k, v =>
    if keyLt k k' then (k, v) :: (k', v') :: rest
    else if k == k' then (k, v) :: rest
    else (k', v') :: ksPut rest k v

/-- `db.remove(key)` : drop the entry for `key` (no-op when absent,
matching LMDB, whose remove merely reports whether a key was found). -/
def ksRemove : Keyspace → Key → Keyspace
  | [], _ => []
  | (k', v') :: rest, k =>
    if k == k' then rest else (k', v') :: ksRemove rest k

/-- A range bound test: `start <= k` (inclusive) and `k < end`
(exclusive), each bound optional, as in `db.getRange` options. -/
def inRange (start? end? : Option Key) (k : Key) : Bool :=
  (match start? with
   | none => true
   | some st => !(keyLt k st)) &&
  (match end? with
   | none => true
   | some en => keyLt k en)

/-- `db.getRange({start, end, limit})` over a sorted keyspace: the
entries inside the bounds, in ascending key order, at most `limit`. -/
def ksRange (ks : Keyspace) (start? end? : Option Key) (limit : Nat) :
    List (Key × Json) :=
  (ks.filter (fun e => inRange start? end? e.1)).take limit

/-- Metadata record written by `createDatabase` / `trackDatabase`
(`JSON.stringify({created, name})`; the stored text is a nonempty string,
hence always truthy, so presence of the record is what `if (await
metaDb.get(name))` tests). -/
structure MetaRecord where
  created : String
  name : Name
deriving Repr, DecidableEq

/-- Whole-adapter state after a successful `initializeLmdb`:
the `__meta` keyspace, the persistent per-name keyspaces of the root
environment, and the in-process `dbCache` of opened names. -/
structure DbState where
  meta : List (Name × MetaRecord)
  stores : List (Name × Keyspace)
  cache : List Name
deriving Repr

/-- State right after `initializeLmdb` on a fresh directory. -/
def initState : DbState := { meta := [], stores := [], cache := [] }

/-- `metaDb.get(name)`. -/
def metaGet (s : DbState) (n : Name) : Option MetaRecord :=
  (s.meta.find? (fun e => e.1 == n)).map (·.2)

/-- `metaDb.remove(name)`. -/
def metaRemove (m : List (Name × MetaRecord)) (n : Name) :
    List (Name × MetaRecord) :=
  match m with
  | [] => []
  | (k, v) :: rest =>
    if n == k then rest else (k, v) :: metaRemove rest n

/-- The persistent keyspace registered under `n`; LMDB's `openDB` gives
an empty keyspace for a name never written to. -/
def storeOf (s : DbState) (n : Name) : Keyspace :=
  ((s.stores.find? (fun e => e.1 == n)).map (·.2)).getD []

/-- Replace (or register) the keyspace stored under `n`. -/
def setStoreList : List (Name × Keyspace) → Name → Keyspace →
    List (Name × Keyspace)
  | [], n, ks => [(n, ks)]
  | (n', ks') :: rest, n, ks =>
    if n == n' then (n, ks) :: rest else (n', ks') :: setStoreList rest n ks

/-- State with the keyspace of `n` replaced by `ks`. -/
def setStore (s : DbState) (n : Name) (ks : Keyspace) : DbState :=
  { s with stores := setStoreList s.stores n ks }

/-- `SYSTEM_DBS = ['__meta', '__keys']` (source line 77). -/
def SYSTEM_DBS : List Name := ["__meta", "__keys"]

/-- `SYSTEM_DB = '__system'` (source line 500), the credential keyspace. -/
def SYSTEM_DB : Name := "__system"

/-- `getDb(name)` (source lines 146-160): the persistent keyspace is
identified by name; the only state effect is caching the opened handle. -/
def getDb (s : DbState) (n : Name) : DbState :=
  if s.cache.contains n then s else { s with cache := n :: s.cache }

/-- `createDatabase(name)` (source lines 176-194): fail when a truthy
meta record exists, otherwise open the keyspace and write the meta
record.  `now` stands for `new Date().toISOString()`. -/
def createDatabase (s : DbState) (name : Name) (now : String) :
    Except String DbState :=
  match metaGet s name with
  | some _ => .error "Database already exists"
  | none =>
    let s1 := getDb s name
    .ok { s1 with meta := s1.meta ++ [(name, ⟨now, name⟩)] }

/-- `deleteDatabase(name)` (source lines 209-229): fail when no meta
record exists; clear the keyspace ONLY when its handle sits in the
in-process cache; finally remove the meta record. -/
def deleteDatabase (s : DbState) (name : Name) : Except String DbState :=
  match metaGet s name with
  | none => .error "Database not found"
  | some _ =>
    let s1 :=
      if s.cache.contains name then
        { setStore s name [] with cache := s.cache.erase name }
      else s
    .ok { s1 with meta := metaRemove s1.meta name }

/-- Boolean `<=` on names, the JS default string sort order. -/
def nameLe (a b : Name) : Bool := decide (a ≤ b)

/-- Insert into a `nameLe`-sorted list. -/
def insertName (n : Name) : List Name → List Name
  | [] => [n]
  | m :: rest => if nameLe n m then n :: m :: rest else m :: insertName n rest

/-- `Array.prototype.sort` on names (insertion sort; order-equivalent). -/
def sortNames : List Name → List Name
  | [] => []
  | n :: rest => insertName n (sortNames rest)

/-- `listDatabases()` (source lines 244-259): names of all meta records
except `SYSTEM_DBS`, sorted ascending. -/
def listDatabases (s : DbState) : List Name :=
  sortNames (((s.meta.map (·.1)).filter (fun k => !(SYSTEM_DBS.contains k))))

/-- `trackDatabase(name)` (source lines 290-301). -/
def trackDatabase (s : DbState) (name : Name) (now : String) : DbState :=
  match metaGet s name with
  | some _ => s
  | none => { s with meta := s.meta ++ [(name, ⟨now, name⟩)] }

/-- `untrackDatabase(name)` (source lines 312-318). -/
def untrackDatabase (s : DbState) (name : Name) : DbState :=
  { s with meta := metaRemove s.meta name }

/-- `shutdownLmdb()` followed by `initializeLmdb` on the same path:
the in-process cache is cleared (`dbCache.clear()`), while the meta
records and the keyspaces persist on disk. -/
def restartLmdb (s : DbState) : DbState := { s with cache := [] }

/-- A document as returned by the adapter. -/
structure Document where
  key : Key
  value : Json
deriving Repr

/-- `createDocument(dbName, key, value)` (source lines 334-343): the
existence check is `if (await db.get(key))` - a TRUTHINESS test on the
stored value, not a presence test. -/
def createDocument (s : DbState) (dbName : Name) (key : Key) (value : Json) :
    Except String DbState :=
  let s1 := getDb s dbName
  if optTruthy (ksGet (storeOf s1 dbName) key) then
    .error "Document already exists"
  else
    .ok (setStore s1 dbName (ksPut (storeOf s1 dbName) key value))

/-- `getDocument(dbName, key)` (source lines 360-369). -/
def getDocument (s : DbState) (dbName : Name) (key : Key) :
    Option Document × DbState :=
  let s1 := getDb s dbName
  match ksGet (storeOf s1 dbName) key with
  | none => (none, s1)
  | some v => (some ⟨key, v⟩, s1)

/-- `updateDocument(dbName, key, value)` (source lines 386-395): again a
truthiness test (`if (!(await db.get(key)))`) guards the not-found path. -/
def updateDocument (s : DbState) (dbName : Name) (key : Key) (value : Json) :
    Except String DbState :=
  let s1 := getDb s dbName
  if !(optTruthy (ksGet (storeOf s1 dbName) key)) then
    .error "Document not found"
  else
    .ok (setStore s1 dbName (ksPut (storeOf s1 dbName) key value))

/-- `deleteDocument(dbName, key)` (source lines 410-419). -/
def deleteDocument (s : DbState) (dbName : Name) (key : Key) :
    Except String DbState :=
  let s1 := getDb s dbName
  if !(optTruthy (ksGet (storeOf s1 dbName) key)) then
    .error "Document not found"
  else
    .ok (setStore s1 dbName (ksRemove (storeOf s1 dbName) key))

/-- Options of `listDocuments` (`QueryOptions`, source lines 56-65). -/
structure QueryOptions where
  startKey : Option Key := none
  endKey : Option Key := none
  limit : Option Nat := none
  pfx : Option Key := none

/-- `prefix.slice(0, -1) + String.fromCharCode(prefix.charCodeAt(len-1) + 1)`
(source line 467); `String.fromCharCode` wraps its argument mod 65536. -/
def pfxUpperBound (p : Key) : Key :=
  p.dropLast ++ [(p.getLastD 0 + 1) % 65536]

/-- The effective scan bounds of `listDocuments` (source lines 460-471):
a truthy (nonempty) `prefix` overrides `startKey`/`endKey`. -/
def effRange (options : QueryOptions) : Option Key × Option Key :=
  match options.pfx with
  | some p =>
    if p == [] then (options.startKey, options.endKey)
    else (some p, some (pfxUpperBound p))
  | none => (options.startKey, options.endKey)

/-- `listDocuments(dbName, options)` (source lines 449-494): resolve the
range, scan with `limit` (default 1000 via destructuring), push each
entry, stop at `limit` results. -/
def listDocuments (s : DbState) (dbName : Name) (options : QueryOptions) :
    List Document × DbState :=
  let s1 := getDb s dbName
  let limit := options.limit.getD 1000
  let r := effRange options
  let docs := (ksRange (storeOf s1 dbName) r.1 r.2 limit).map
    (fun e => ⟨e.1, e.2⟩)
  (docs, s1)

/-- A Lean string as a key (UTF-16 units of its characters); used for
the `key:${id}` keys of the credential keyspace. -/
def strToKey (s : String) : Key := s.data.map Char.toNat

/-- A parsed credential record as stored by `generateApiKey`
(source lines 528-543): `{id, keyHash, name, created}`. -/
structure StoredKey where
  id : String
  keyHash : Key
  name : String
  created : String
deriving Repr

/-- The scan loop of `validateApiKey(key)` (source lines 559-574) over
the parsed records stored under `key:` entries of the `__system`
keyspace, instrumented with the number of records the loop examined:
`stored.keyHash === keyHash` returns `true` IMMEDIATELY on the first
match. -/
def validateScan (keyHash : Key) : List StoredKey → Bool × Nat
  | [] => (false, 0)
  | r :: rs =>
    if r.keyHash == keyHash then (true, 1)
    else
      let p := validateScan keyHash rs
      (p.1, p.2 + 1)

/-- `validateApiKey(key)` (source lines 559-574).  The SHA-256 digest
`hash` (from `node:crypto`, an external collaborator) is a parameter of
the model; the scan logic does not depend on it. -/
def validateApiKey (hash : Key → Key) (records : List StoredKey) (key : Key) :
    Bool :=
  (validateScan (hash key) records).1

/-- `deleteApiKey(id)` (source lines 616-619): a bare
`db.remove('key:' + id)`; the result of `remove` is ignored, so the
function returns normally whether or not the record existed. -/
def deleteApiKey (s : DbState) (id : String) : Except String DbState :=
  let s1 := getDb s SYSTEM_DB
  .ok (setStore s1 SYSTEM_DB
    (ksRemove (storeOf s1 SYSTEM_DB) (strToKey ("key:" ++ id))))

/-- Character class of the database-name regex `^[a-zA-Z0-9_-]+$`
(data.ts line 85). -/
def isNameChar (c : Char) : Bool :=
  (decide ('a' ≤ c) && decide (c ≤ 'z')) ||
  (decide ('A' ≤ c) && decide (c ≤ 'Z')) ||
  (decide ('0' ≤ c) && decide (c ≤ '9')) ||
  c == '_' || c == '-'

/-- `POST /api/dbs/:db` handler (data.ts lines 72-107), returning the
HTTP status and resulting state.  An empty or all-whitespace name gives
400 (whitespace is outside the regex class, so folding the trim check
into the regex branch preserves the status). -/
def postDbRoute (s : DbState) (dbName : Name) (now : String) :
    Nat × DbState :=
  if dbName == "" then (400, s)
  else if !(dbName.data.all isNameChar) then (400, s)
  else
    match createDatabase s dbName now with
    | .error _ => (500, s)
    | .ok s1 => (201, trackDatabase s1 dbName now)

/-- `POST /api/dbs/:db/docs` handler (data.ts lines 205-267): the body
checks are `!body.key || typeof body.key !== 'string'` (an empty string
key is falsy, hence 400; the typeof test is static in the model) and
`body.value === undefined`; then `createDocument`, whose
already-exists error is mapped to 409. -/
def postDocRoute (s : DbState) (dbName : Name) (key : Key)
    (value? : Option Json) : Nat × DbState :=
  if dbName == "" then (400, s)
  else if key == [] then (400, s)
  else
    match value? with
    | none => (400, s)
    | some v =>
      match createDocument s dbName key v with
      | .error _ => (409, s)
      | .ok s1 => (201, s1)

/-- `parseInt(str, 10)`: skip leading JS whitespace, optional sign,
then leading decimal digits; `none` models `NaN` (no digits). -/
def parseIntJS (str : String) : Option Int :=
  let cs := str.data.dropWhile (fun c =>
    c == ' ' || c == '\t' || c == '\n' || c == '\r')
  let signed : Bool × List Char :=
    match cs with
    | '-' :: rest => (true, rest)
    | '+' :: rest => (false, rest)
    | _ => (false, cs)
  let ds := signed.2.takeWhile Char.isDigit
  if ds.isEmpty then none
  else
    let n : Nat := ds.foldl (fun acc c => acc * 10 + (c.toNat - 48)) 0
    some (if signed.1 then -(n : Int) else (n : Int))

/-- The limit-parsing block of `GET /api/dbs/:db/docs` (data.ts lines
517-528): `if (limitStr)` (undefined and the empty string are falsy)
leaves the limit undefined; otherwise `NaN` or a value below 1 is a 400,
and the parsed value is capped by `Math.min(parsed, 10000)`. -/
def parseLimitParam (limitStr : Option String) : Except String (Option Nat) :=
  match limitStr with
  | none => .ok none
  | some str =>
    if str == "" then .ok none
    else
      match parseIntJS str with
      | none => .error "limit must be a positive integer"
      | some p =>
        if p < 1 then .error "limit must be a positive integer"
        else .ok (some (min p.toNat 10000))

/-- `GET /api/dbs/:db/docs` handler (data.ts lines 500-549): parse the
query parameters, then `listDocuments`. -/
def getDocsRoute (s : DbState) (dbName : Name)
    (startKey endKey : Option Key) (limitStr : Option String)
    (pfx : Option Key) : Except String (List Document × DbState) :=
  if dbName == "" then .error "Database name is required"
  else
    match parseLimitParam limitStr with
    | .error e => .error e
    | .ok lim => .ok (listDocuments s dbName ⟨startKey, endKey, lim, pfx⟩)

/-- `DELETE /api/auth/:id` handler (data.ts auth section, lines 683-706):
a nonempty id always reaches `deleteApiKey` and answers 200. -/
def deleteAuthRoute (s : DbState) (id : String) : Nat × DbState :=
  if id == "" then (400, s)
  else
    match deleteApiKey s id with
    | .error _ => (500, s)
    | .ok s1 => (200, s1)

/-- The recursive form of the exclusive upper bound of a prefix scan:
last element incremented, earlier elements kept. -/
def ubAux : Key → Key
  | [] => []
  | [a] => [a + 1]
  | a :: b :: rest => a :: ubAux (b :: rest)

/-! ### Structural lemmas about the embedded operations -/

theorem keyLt_nil (k : Key) : keyLt k [] = false := by
  cases k <;> rfl

theorem keyLt_irrefl (k : Key) : keyLt k k = false := by
  induction k with
  | nil => rfl
  | cons a as ih => simp [keyLt, ih]

theorem getDb_meta (s : DbState) (n : Name) : (getDb s n).meta = s.meta := by
  unfold getDb; split <;> rfl

theorem getDb_stores (s : DbState) (n : Name) :
    (getDb s n).stores = s.stores := by
  unfold getDb; split <;> rfl

theorem storeOf_getDb (s : DbState) (n m : Name) :
    storeOf (getDb s n) m = storeOf s m := by
  unfold storeOf; rw [getDb_stores]

theorem metaGet_getDb (s : DbState) (n m : Name) :
    metaGet (getDb s n) m = metaGet s m := by
  unfold metaGet; rw [getDb_meta]

theorem setStore_meta (s : DbState) (n : Name) (ks : Keyspace) :
    (setStore s n ks).meta = s.meta := rfl

theorem find?_setStoreList_self (l : List (Name × Keyspace)) (n : Name)
    (ks : Keyspace) :
    (setStoreList l n ks).find? (fun e => e.1 == n) = some (n, ks) := by
  induction l with
  | nil => simp [setStoreList]
  | cons hd tl ih =>
    obtain ⟨n', ks'⟩ := hd
    by_cases h : n = n'
    · subst h
      simp [setStoreList]
    · have h1 : (n == n') = false := by simp [h]
      have h2 : (n' == n) = false := by
        simp [beq_eq_false_iff_ne]
        exact fun hh => h hh.symm
      simp [setStoreList, h1, List.find?_cons, h2, ih]

theorem storeOf_setStore_self (s : DbState) (n : Name) (ks : Keyspace) :
    storeOf (setStore s n ks) n = ks := by
  unfold storeOf setStore
  simp [find?_setStoreList_self]

theorem ksGet_ksPut_self (ks : Keyspace) (k : Key) (v : Json) :
    ksGet (ksPut ks k v) k = some v := by
  induction ks with
  | nil => simp [ksPut, ksGet]
  | cons hd tl ih =>
    obtain ⟨k', v'⟩ := hd
    by_cases hlt : keyLt k k' = true
    · simp [ksPut, hlt, ksGet]
    · by_cases heq : k = k'
      · subst heq
        simp [ksPut, hlt, ksGet]
      · have h1 : (k == k') = false := by simp [heq]
        have h2 : (k' == k) = false := by
          simp [beq_eq_false_iff_ne]
          exact fun hh => heq hh.symm
        simpa [ksPut, hlt, h1, ksGet, List.find?_cons, h2] using ih

theorem ksGet_eq_none_of_forall (ks : Keyspace) (k : Key)
    (h : ∀ e ∈ ks, e.1 ≠ k) : ksGet ks k = none := by
  unfold ksGet
  have : ks.find? (fun e => e.1 == k) = none := by
    rw [List.find?_eq_none]
    intro e he
    simp [h e he]
  simp [this]

theorem ksGet_ksRemove_self (ks : Keyspace) (k : Key) (hs : ksSorted ks) :
    ksGet (ksRemove ks k) k = none := by
  induction ks with
  | nil => rfl
  | cons hd tl ih =>
    obtain ⟨k', v'⟩ := hd
    obtain ⟨hhd, htl⟩ := List.pairwise_cons.mp hs
    by_cases heq : k = k'
    · subst heq
      have h1 : (k == k) = true := by simp
      rw [ksRemove]
      simp only [h1, if_pos rfl]
      apply ksGet_eq_none_of_forall
      intro e he heq2
      have := hhd e he
      rw [heq2, keyLt_irrefl] at this
      exact Bool.false_ne_true this
    · have h1 : (k == k') = false := by simp [heq]
      have h2 : (k' == k) = false := by
        simp [beq_eq_false_iff_ne]
        exact fun hh => heq hh.symm
      simpa [ksRemove, h1, ksGet, List.find?_cons, h2] using ih htl

theorem mem_insertName (m n : Name) (l : List Name) :
    m ∈ insertName n l ↔ m = n ∨ m ∈ l := by
  induction l with
  | nil => simp [insertName]
  | cons hd tl ih =>
    by_cases h : nameLe n hd = true
    · simp [insertName, h]
    · simp [insertName, h, ih]
      tauto

theorem mem_sortNames (m : Name) (l : List Name) :
    m ∈ sortNames l ↔ m ∈ l := by
  induction l with
  | nil => simp [sortNames]
  | cons hd tl ih => simp [sortNames, mem_insertName, ih]

theorem ubAux_cons_cons (a b : Nat) (rest : List Nat) :
    ubAux (a :: b :: rest) = a :: ubAux (b :: rest) := rfl

theorem pfxUpperBound_eq_ubAux (p : Key) (hp : p ≠ [])
    (h : p.getLastD 0 + 1 < 65536) : pfxUpperBound p = ubAux p := by
  induction p with
  | nil => exact absurd rfl hp
  | cons a rest ih =>
    cases rest with
    | nil =>
      have hd : ([a] : Key).getLastD 0 = a := rfl
      rw [hd] at h
      unfold pfxUpperBound ubAux
      rw [hd]
      simp [Nat.mod_eq_of_lt h]
    | cons c rest' =>
      have hd : (a :: c :: rest').getLastD 0 = (c :: rest').getLastD 0 := by
        rw [List.getLastD_eq_getLast?, List.getLastD_eq_getLast?]
        rfl
      unfold pfxUpperBound at ih ⊢
      rw [ubAux_cons_cons, ← ih (by simp) (by rw [← hd]; exact h)]
      simp [hd]

theorem range_iff_isPrefixOf (p : Key) (hp : p ≠ []) (k : Key) :
    ((!keyLt k p) && keyLt k (ubAux p)) = p.isPrefixOf k := by
  induction p generalizing k with
  | nil => exact absurd rfl hp
  | cons a rest ih =>
    cases rest with
    | nil =>
      cases k with
      | nil => simp [keyLt, ubAux, List.isPrefixOf]
      | cons b bs =>
        simp only [ubAux]
        rcases Nat.lt_trichotomy b a with h | h | h
        · have h1 : a ≠ b := by omega
          simp [keyLt, h, List.isPrefixOf, h1]
        · subst h
          have h1 : ¬ b < b := by omega
          have h2 : b < b + 1 := by omega
          simp [keyLt, h1, h2, List.isPrefixOf, keyLt_nil]
        · have h1 : ¬ b < a := by omega
          have h2 : ¬ b < a + 1 := by omega
          have h3 : a ≠ b := by omega
          simp [keyLt, h1, h, h2, List.isPrefixOf, h3, keyLt_nil, ite_self]
    | cons c rest' =>
      cases k with
      | nil => simp [keyLt, List.isPrefixOf]
      | cons b bs =>
        have ihs := ih (by simp) bs
        rw [ubAux_cons_cons]
        rcases Nat.lt_trichotomy b a with h | h | h
        · have h1 : a ≠ b := by omega
          simp [keyLt, h, List.isPrefixOf, h1]
        · subst h
          have h1 : ¬ b < b := by omega
          simp [keyLt, h1, List.isPrefixOf, ihs]
        · have h1 : ¬ b < a := by omega
          have h3 : a ≠ b := by omega
          simp [keyLt, h1, h, List.isPrefixOf, h3]

theorem not_mem_listDatabases_of_metaGet_none (s : DbState) (d : Name)
    (h : metaGet s d = none) : d ∉ listDatabases s := by
  intro hmem
  unfold listDatabases at hmem
  rw [mem_sortNames] at hmem
  have hmem2 := (List.mem_filter.mp hmem).1
  obtain ⟨e, he, hfst⟩ := List.mem_map.mp hmem2
  unfold metaGet at h
  rw [Option.map_eq_none'] at h
  rw [List.find?_eq_none] at h
  have := h e he
  simp [hfst] at this

theorem metaGet_congr (s t : DbState) (d : Name) (h : t.meta = s.meta) :
    metaGet t d = metaGet s d := by
  unfold metaGet; rw [h]

theorem listDatabases_congr (s t : DbState) (h : t.meta = s.meta) :
    listDatabases t = listDatabases s := by
  unfold listDatabases; rw [h]

theorem parseLimitParam_bound (limitStr : Option String) (lim : Option Nat)
    (h : parseLimitParam limitStr = .ok lim) :
    lim.getD 1000 ≤ 10000 ∧ (limitStr = none → lim = none) := by
  cases limitStr with
  | none =>
    unfold parseLimitParam at h
    cases h
    exact ⟨by norm_num, fun _ => rfl⟩
  | some str =>
    refine ⟨?_, by intro hh; cases hh⟩
    simp only [parseLimitParam] at h
    split at h
    · cases h
      norm_num
    · split at h
      · cases h
      · split at h
        · cases h
        · cases h
          exact Nat.min_le_right _ 10000

/-! ### States used by the concrete counterexample/witness theorems -/

/-- Two documents with keys `"a"` and `"b"` (codes 97, 98). -/
def c5CexState : DbState where
  meta := []
  stores := [("db", [([97], .null), ([98], .null)])]
  cache := []

/-- Keys `product:1` / `user:1` / `user:2` abbreviated to their first and
last code units: `[112,58,49]`, `[117,58,49]`, `[117,58,50]`, in ascending
key order. -/
def c5WitState : DbState where
  meta := []
  stores := [("db",
    [([112, 58, 49], .num 3), ([117, 58, 49], .num 1),
     ([117, 58, 50], .num 2)])]
  cache := []

/-- Four documents under single-digit keys, in ascending order. -/
def c6WitState : DbState where
  meta := []
  stores := [("db",
    [([48], .num 0), ([49], .num 1), ([50], .num 2), ([51], .num 3)])]
  cache := []

/-- Credential records with two distinct hashes. -/
def c7Records : List StoredKey :=
  [⟨"1", [0], "a", "t"⟩, ⟨"2", [1], "b", "t"⟩]

/-- One stored credential record for id `abc`. -/
def c9WitState : DbState where
  meta := []
  stores := [(SYSTEM_DB, [(strToKey "key:abc", .str [104])])]
  cache := []

/-! ### The claims -/

/-- C1: the claim fails on the code.  `createDocument` guards duplicates
with `if (await db.get(key))`, a truthiness test, so after a first create
stores the falsy value `0`, a second create on the same key does not
raise the duplicate-key error: it silently overwrites, and `getDocument`
returns the second value. -/
theorem c1_falsy_create_overwrites :
    (do
      let s1 ← createDocument initState "users" [107] (.num 0)
      let s2 ← createDocument s1 "users" [107] (.num 1)
      pure ((getDocument s2 "users" [107]).1)
      : Except String (Option Document))
      = .ok (some ⟨[107], .num 1⟩) := rfl

/-- C2: the claim fails on the code.  `deleteDatabase` clears the
keyspace only when its handle is in the in-process cache; after a
restart (cache empty, data persistent) deleting the namespace removes
the meta record - so `listDatabases` no longer lists it - yet the
document is still retrievable by direct key. -/
theorem c2_uncached_delete_leaves_documents :
    (do
      let s1 ← createDatabase initState "ns" "t0"
      let s2 ← createDocument s1 "ns" [107] (.num 7)
      let s4 ← deleteDatabase (restartLmdb s2) "ns"
      pure (listDatabases s4, (getDocument s4 "ns" [107]).1)
      : Except String (List Name × Option Document))
      = .ok ([], some ⟨[107], .num 7⟩) := rfl

/-- C3: the claim fails on the code.  `createDatabase` never checks
reserved names, the route regex `^[a-zA-Z0-9_-]+$` admits `__system`,
and `SYSTEM_DBS = ['__meta','__keys']` omits the credential keyspace
`'__system'`: so the public API creates it (201), `listDatabases`
then lists it, and `deleteDatabase` on it succeeds. -/
theorem c3_system_keyspace_creatable_listed_deletable :
    (postDbRoute initState SYSTEM_DB "t0").1 = 201
    ∧ listDatabases (postDbRoute initState SYSTEM_DB "t0").2 = [SYSTEM_DB]
    ∧ (∃ s2, deleteDatabase (postDbRoute initState SYSTEM_DB "t0").2 SYSTEM_DB
        = .ok s2) :=
  ⟨rfl, rfl, _, rfl⟩

/-- C4: the claim fails on the code.  `updateDocument` and
`deleteDocument` guard existence with `if (!(await db.get(key)))`, a
truthiness test: when the key holds the falsy value `0` (so
`getDocument` does return a document), both report the not-found
error instead of succeeding. -/
theorem c4_falsy_value_update_delete_misreport :
    (do
      let s1 ← createDocument initState "ns" [107] (.num 0)
      pure ((getDocument s1 "ns" [107]).1) : Except String (Option Document))
      = .ok (some ⟨[107], .num 0⟩)
    ∧ (do
      let s1 ← createDocument initState "ns" [107] (.num 0)
      updateDocument s1 "ns" [107] (.num 1) : Except String DbState)
      = .error "Document not found"
    ∧ (do
      let s1 ← createDocument initState "ns" [107] (.num 0)
      deleteDocument s1 "ns" [107] : Except String DbState)
      = .error "Document not found" :=
  ⟨rfl, rfl, rfl⟩

/-- C5 counterexample: with the empty prefix (which every key begins
with) and a `startKey` in the same options, the code does NOT give the
prefix precedence - `if (prefix)` is false for the empty string - so the
result is not the set of documents whose keys begin with the prefix. -/
theorem c5_empty_prefix_no_precedence :
    (listDocuments c5CexState "db" ⟨some [98], none, none, some []⟩).1
      ≠ ((storeOf c5CexState "db").filter
          (fun e => (([] : Key)).isPrefixOf e.1)).map
            (fun e => ⟨e.1, e.2⟩) :=
  fun h => absurd (congrArg List.length h) (by decide)

/-- C5 (amended): for a NONEMPTY prefix `p` whose last UTF-16 unit is
below the maximum code point, `listDocuments` with `prefix = p` ignores
`startKey`/`endKey` and returns exactly the documents whose keys begin
with `p`, in ascending key order, truncated to `limit` (default 1000);
the effective scan range is `[p, p')` with the last unit incremented
(mod 2^16). -/
theorem c5_nonempty_prefix_scan (s : DbState) (db : Name)
    (sk ek : Option Key) (L : Option Nat) (p : Key)
    (hp : p ≠ []) (hlast : p.getLastD 0 + 1 < 65536)
    (hs : ksSorted (storeOf s db)) :
    (listDocuments s db ⟨sk, ek, L, some p⟩).1
      = (((storeOf s db).filter (fun e => p.isPrefixOf e.1)).take
          (L.getD 1000)).map (fun e => ⟨e.1, e.2⟩)
    ∧ List.Pairwise (fun d1 d2 => keyLt d1.key d2.key = true)
        (listDocuments s db ⟨sk, ek, L, some p⟩).1
    ∧ (((storeOf s db).filter (fun e => p.isPrefixOf e.1)).length
          ≤ L.getD 1000 →
        (listDocuments s db ⟨sk, ek, L, some p⟩).1
          = ((storeOf s db).filter (fun e => p.isPrefixOf e.1)).map
              (fun e => ⟨e.1, e.2⟩)) := by
  have hpb : (p == ([] : Key)) = false := by simp [hp]
  have hfilter : (storeOf s db).filter
      (fun e => inRange (some p) (some (pfxUpperBound p)) e.1)
      = (storeOf s db).filter (fun e => p.isPrefixOf e.1) := by
    apply List.filter_congr
    intro e he
    rw [pfxUpperBound_eq_ubAux p hp hlast]
    exact range_iff_isPrefixOf p hp e.1
  have hmain : (listDocuments s db ⟨sk, ek, L, some p⟩).1
      = (((storeOf s db).filter (fun e => p.isPrefixOf e.1)).take
          (L.getD 1000)).map (fun e => ⟨e.1, e.2⟩) := by
    unfold listDocuments effRange ksRange
    simp only [storeOf_getDb, hpb]
    rw [← hfilter]
    rfl
  refine ⟨hmain, ?_, ?_⟩
  · rw [hmain, List.pairwise_map]
    apply List.Pairwise.sublist
      (List.Sublist.trans (List.take_sublist _ _) (List.filter_sublist _))
    exact hs
  · intro hlen
    rw [hmain, List.take_of_length_le hlen]

/-- C5 witness: keys `product:1`, `user:1`, `user:2`; the prefix
`user` (codes `[117, 58]` standing for `u:`-style prefix) selects
exactly the two user documents, in ascending order. -/
theorem c5_witness :
    (([117, 58] : Key) ≠ [])
    ∧ ([117, 58] : Key).getLastD 0 + 1 < 65536
    ∧ ksSorted (storeOf c5WitState "db")
    ∧ (listDocuments c5WitState "db"
        ⟨none, none, none, some [117, 58]⟩).1
      = (((storeOf c5WitState "db").filter
          (fun e => ([117, 58] : Key).isPrefixOf e.1)).take
            ((none : Option Nat).getD 1000)).map (fun e => ⟨e.1, e.2⟩) :=
  ⟨by decide, by decide, by decide,
    (c5_nonempty_prefix_scan c5WitState "db" none none none [117, 58]
      (by decide) (by decide) (by decide)).1⟩

/-- C6: the documents endpoint parses `limit` (default 1000 via the
destructuring in `listDocuments`, hard `Math.min` cap 10000 in the
route), and returns the ascending range scan truncated to that
effective limit - so never more than 10000 documents, and the ones
returned are the lexicographically smallest matches. -/
theorem c6_limit_default_and_cap (s : DbState) (db : Name)
    (sk ek : Option Key) (limitStr : Option String) (pfx : Option Key)
    (docs : List Document) (s' : DbState)
    (h : getDocsRoute s db sk ek limitStr pfx = .ok (docs, s'))
    (hs : ksSorted (storeOf s db)) :
    ∃ eff : Nat,
      eff ≤ 10000
      ∧ (limitStr = none → eff = 1000)
      ∧ docs = (((storeOf s db).filter
            (fun e => inRange (effRange ⟨sk, ek, none, pfx⟩).1
              (effRange ⟨sk, ek, none, pfx⟩).2 e.1)).take eff).map
                (fun e => ⟨e.1, e.2⟩)
      ∧ docs.length ≤ eff
      ∧ List.Pairwise (fun d1 d2 => keyLt d1.key d2.key = true) docs := by
  unfold getDocsRoute at h
  by_cases hdb : (db == "") = true
  · rw [if_pos hdb] at h; cases h
  · rw [if_neg hdb] at h
    cases hparse : parseLimitParam limitStr with
    | error e => rw [hparse] at h; cases h
    | ok lim =>
      rw [hparse] at h
      cases h
      obtain ⟨hcap, hnone⟩ := parseLimitParam_bound limitStr lim hparse
      refine ⟨lim.getD 1000, hcap, fun hn => by rw [hnone hn]; rfl, ?_, ?_, ?_⟩
      · simp only [ksRange, storeOf_getDb]
        rfl
      · simp only [ksRange, List.length_map, List.length_take]
        exact Nat.min_le_left _ _
      · simp only [ksRange, storeOf_getDb]
        rw [List.pairwise_map]
        apply List.Pairwise.sublist
          (List.Sublist.trans (List.take_sublist _ _) (List.filter_sublist _))
        exact hs

/-- C6 witness: four documents, `limit=2`: the two smallest keys come
back, within the cap. -/
theorem c6_witness :
    getDocsRoute c6WitState "db" none none (some "2") none
      = .ok ([⟨[48], .num 0⟩, ⟨[49], .num 1⟩],
          { c6WitState with cache := ["db"] })
    ∧ ksSorted (storeOf c6WitState "db")
    ∧ (∃ eff : Nat,
        eff ≤ 10000
        ∧ ((some "2" : Option String) = none → eff = 1000)
        ∧ ([⟨[48], .num 0⟩, ⟨[49], .num 1⟩] : List Document)
          = (((storeOf c6WitState "db").filter
              (fun e => inRange (effRange ⟨none, none, none, none⟩).1
                (effRange ⟨none, none, none, none⟩).2 e.1)).take eff).map
                  (fun e => ⟨e.1, e.2⟩)
        ∧ ([⟨[48], .num 0⟩, ⟨[49], .num 1⟩] : List Document).length ≤ eff
        ∧ List.Pairwise (fun d1 d2 => keyLt d1.key d2.key = true)
            ([⟨[48], .num 0⟩, ⟨[49], .num 1⟩] : List Document)) :=
  ⟨rfl, by decide,
    c6_limit_default_and_cap c6WitState "db" none none (some "2") none
      _ _ rfl (by decide)⟩

/-- C7: the claim fails on the code.  The `validateApiKey` scan returns
`true` the moment `stored.keyHash === keyHash` matches, so the number of
stored records it examines is 1 when the match is first and 2 when the
match is second: the work done depends on the position of the matching
record (and `===` is an ordinary, not constant-time, comparison). -/
theorem c7_scan_short_circuits :
    validateApiKey (fun h => h) c7Records [0] = true
    ∧ validateApiKey (fun h => h) c7Records [1] = true
    ∧ (validateScan [0] c7Records).2 = 1
    ∧ (validateScan [1] c7Records).2 = 2 :=
  ⟨rfl, rfl, rfl, rfl⟩

/-- C8: the claim fails on the code.  The repository's
`documentKeySchema` (1-1024 chars, no NUL) is imported by no route; the
only guard in `POST /dbs/:db/docs` is `!body.key`, so a key containing
the NUL byte - and likewise a 1025-byte key - passes validation, the
storage engine IS called, and the document lands in the store. -/
theorem c8_nul_key_reaches_storage :
    (postDocRoute initState "db" [97, 0, 98] (some .null)).1 = 201
    ∧ ksGet (storeOf (postDocRoute initState "db" [97, 0, 98]
        (some .null)).2 "db") [97, 0, 98] = some .null
    ∧ (postDocRoute initState "db" (List.replicate 1025 97)
        (some .null)).1 = 201 :=
  ⟨rfl, rfl, rfl⟩

/-- C9 counterexample: revoking an id for which no credential record
exists still reports success: the fresh store holds no record for
`key:nope`, yet the route answers 200 and `deleteApiKey` returns
normally instead of a NotFound error. -/
theorem c9_missing_id_reports_success :
    (deleteAuthRoute initState "nope").1 = 200
    ∧ ksGet (storeOf initState SYSTEM_DB) (strToKey "key:nope") = none
    ∧ (∃ s', deleteApiKey initState "nope" = .ok s') :=
  ⟨rfl, rfl, _, rfl⟩

/-- C9 (amended): `deleteApiKey` always succeeds - `db.remove` is fired
and its result ignored, so revoking removes the record when present and
is a silent no-op when absent; no NotFound error ever occurs. -/
theorem c9_revoke_always_succeeds (s : DbState) (id : String)
    (hs : ksSorted (storeOf s SYSTEM_DB)) :
    ∃ s', deleteApiKey s id = .ok s'
      ∧ ksGet (storeOf s' SYSTEM_DB) (strToKey ("key:" ++ id)) = none := by
  refine ⟨_, rfl, ?_⟩
  rw [storeOf_setStore_self]
  apply ksGet_ksRemove_self
  rw [storeOf_getDb]
  exact hs

/-- C9 witness: a store holding the record for `abc`; revoking succeeds
and the record is gone. -/
theorem c9_witness :
    ksSorted (storeOf c9WitState SYSTEM_DB)
    ∧ (∃ s', deleteApiKey c9WitState "abc" = .ok s'
        ∧ ksGet (storeOf s' SYSTEM_DB) (strToKey ("key:" ++ "abc")) = none) :=
  ⟨by decide, c9_revoke_always_succeeds c9WitState "abc" (by decide)⟩

/-- C10: document operations never consult the namespace registry.
For any name with no metadata record and a fresh (empty) keyspace, the
whole document lifecycle proceeds against the implicitly opened
keyspace with no namespace-not-found error: `createDocument` succeeds,
`getDocument` reads the document back, `listDocuments` returns it,
`updateDocument` replaces it, `deleteDocument` removes it - and at the
end no metadata record was ever written, so the name stays absent from
`listDatabases`.  (The truthiness hypotheses on the two values keep the
update/delete guards - the subject of C4 - out of the way.) -/
theorem c10_document_ops_ignore_registry (s : DbState) (d : Name)
    (k : Key) (v v2 : Json)
    (hmeta : metaGet s d = none) (hempty : storeOf s d = [])
    (hv : v.truthy = true) (hv2 : v2.truthy = true) :
    ∃ s1 s2 s3,
      createDocument s d k v = .ok s1
      ∧ (getDocument s1 d k).1 = some ⟨k, v⟩
      ∧ (listDocuments s1 d ⟨none, none, none, none⟩).1 = [⟨k, v⟩]
      ∧ updateDocument s1 d k v2 = .ok s2
      ∧ (getDocument s2 d k).1 = some ⟨k, v2⟩
      ∧ deleteDocument s2 d k = .ok s3
      ∧ (getDocument s3 d k).1 = none
      ∧ metaGet s3 d = none
      ∧ listDatabases s3 = listDatabases s
      ∧ d ∉ listDatabases s := by
  have hsg : storeOf (getDb s d) d = [] := by
    rw [storeOf_getDb]; exact hempty
  have hget1 : ksGet [(k, v)] k = some v := by simp [ksGet]
  have hget2 : ksGet [(k, v2)] k = some v2 := by simp [ksGet]
  refine ⟨setStore (getDb s d) d [(k, v)], ?_⟩
  set S1 := setStore (getDb s d) d [(k, v)] with hS1
  have hs1store : storeOf S1 d = [(k, v)] := storeOf_setStore_self _ _ _
  have hs1meta : S1.meta = s.meta := by
    rw [hS1, setStore_meta, getDb_meta]
  refine ⟨setStore (getDb S1 d) d [(k, v2)], ?_⟩
  set S2 := setStore (getDb S1 d) d [(k, v2)] with hS2
  have hs2store : storeOf S2 d = [(k, v2)] := storeOf_setStore_self _ _ _
  have hs2meta : S2.meta = s.meta := by
    rw [hS2, setStore_meta, getDb_meta, hs1meta]
  refine ⟨setStore (getDb S2 d) d [], ?_, ?_, ?_, ?_, ?_, ?_, ?_, ?_, ?_,
    not_mem_listDatabases_of_metaGet_none s d hmeta⟩
  · simp only [createDocument]
    rw [hsg]
    rfl
  · simp only [getDocument]
    rw [storeOf_getDb, hs1store, hget1]
  · simp only [listDocuments, effRange, ksRange]
    rw [storeOf_getDb, hs1store]
    rfl
  · simp only [updateDocument]
    rw [storeOf_getDb, hs1store, hget1]
    simp [optTruthy, hv, ksPut, keyLt_irrefl]
  · simp only [getDocument]
    rw [storeOf_getDb, hs2store, hget2]
  · simp only [deleteDocument]
    rw [storeOf_getDb, hs2store, hget2]
    simp [optTruthy, hv2, ksRemove]
  · simp only [getDocument]
    rw [storeOf_getDb, storeOf_setStore_self]
    rfl
  · rw [metaGet_congr s _ d (by rw [setStore_meta, getDb_meta, hs2meta])]
    exact hmeta
  · exact listDatabases_congr s _ (by rw [setStore_meta, getDb_meta, hs2meta])

/-- C10 witness: the full document lifecycle in the never-created
namespace `mydb` of a fresh store. -/
theorem c10_witness :
    metaGet initState "mydb" = none
    ∧ storeOf initState "mydb" = []
    ∧ Json.truthy (.num 1) = true
    ∧ Json.truthy (.num 2) = true
    ∧ (∃ s1 s2 s3,
        createDocument initState "mydb" [97] (.num 1) = .ok s1
        ∧ (getDocument s1 "mydb" [97]).1 = some ⟨[97], .num 1⟩
        ∧ (listDocuments s1 "mydb" ⟨none, none, none, none⟩).1
            = [⟨[97], .num 1⟩]
        ∧ updateDocument s1 "mydb" [97] (.num 2) = .ok s2
        ∧ (getDocument s2 "mydb" [97]).1 = some ⟨[97], .num 2⟩
        ∧ deleteDocument s2 "mydb" [97] = .ok s3
        ∧ (getDocument s3 "mydb" [97]).1 = none
        ∧ metaGet s3 "mydb" = none
        ∧ listDatabases s3 = listDatabases initState
        ∧ "mydb" ∉ listDatabases initState) :=
  ⟨rfl, rfl, by decide, by decide,
    c10_document_ops_ignore_registry initState "mydb" [97] (.num 1) (.num 2)
      rfl rfl (by decide) (by decide)⟩

end HyperMicro
